import Mathlib

/-!
Shallow embedding of the meeting-scheduling core of the repository
(`day2/q2/mcp-agent-python/tools/find_optimal_slots.py` and
`day2/q2/mcp-agent-python/tools/detect_scheduling_conflicts.py`).

Modelling conventions, kept uniform across the file:

* Timestamps are naive local times at minute resolution, represented as an
  `Int` counting minutes since 1970-01-01T00:00 (day 0 of the proleptic
  Gregorian calendar used by Python's `datetime`).  All timestamps the two
  tools handle are of the form "YYYY-MM-DDTHH:MM"; second and microsecond
  fields, timezone offsets and the `'Z' -> '+00:00'` rewrite are idealised
  away (the collections are modelled as already carrying minute-resolution
  naive timestamps).
* The `data/users.json` and `data/meetings.json` collections that the Python
  functions load from disk are injected as explicit read-only parameters
  (the spec models them as externally supplied inputs).
* A user's `work_hours` value is a pair of minutes-of-day, the result of the
  `datetime.strptime(.., '%H:%M').time()` parses in the source; a record
  missing the `work_hours` key is modelled as `none`, and the `KeyError`
  that `user['work_hours']` raises becomes an `Except.error`.  Likewise a
  record missing `id` is `none` (`user.get('id')` yields Python `None`).
* Python exceptions that escape to each tool's outer `try/except` are
  modelled by `Except String`: `.error msg` stands for the structured
  failure dict `{'success': False, 'error': msg}`.  Exception message texts
  are abbreviated; the structure (which inputs fail, and with which failure
  shape) follows the source.
* Serialisation is abstracted: where the Python dicts carry `isoformat()`
  strings or `"A to B"` time-range strings, the records here carry the
  underlying minute timestamps.
* String parsing of the tools' input strings (`date_range`, `time_range`)
  is embedded over `List Char` with structural recursion, mirroring
  `str.split`, `datetime.strptime('%Y-%m-%d')` and
  `datetime.fromisoformat` on "YYYY-MM-DDTHH:MM" inputs.
* Python's stable `list.sort(key=...)` is embedded as a stable insertion
  sort (`sortSlots`).
* Python floats are embedded as exact rationals; `round(x, 1)` becomes
  `round1`, exact rational rounding to one decimal (half-up; Python's
  float half-even rounding differs only on exact `.05` ties).
-/

/-! ### String utilities (over `List Char`) -/

/-- Does the second list start with the first one?  Used to locate separator
occurrences, mirroring the scanning done by Python's `str.split(sep)`. -/
def startsWith : List Char → List Char → Bool
  | [], _ => true
  | _ :: _, [] => false
  | a :: as, b :: bs => a == b && startsWith as bs

/-- Worker for `pySplit`: greedy left-to-right split on the (non-empty)
separator, with a fuel argument to keep the recursion structural. -/
def splitSeqAux (sep : List Char) : Nat → List Char → List Char → List (List Char)
  | _, [], acc => [acc.reverse]
  | 0, rest, acc => [acc.reverse ++ rest]
  | fuel + 1, c :: rest, acc =>
    if startsWith sep (c :: rest) && !sep.isEmpty then
      acc.reverse :: splitSeqAux sep fuel ((c :: rest).drop sep.length) []
    else
      splitSeqAux sep fuel rest (c :: acc)

/-- Embedding of Python's `s.split(sep)` for a non-empty separator:
split on every non-overlapping occurrence, scanning left to right. -/
def pySplit (sep : String) (s : String) : List (List Char) :=
  splitSeqAux sep.data s.data.length s.data []

/-- Value of an ASCII decimal digit. -/
def digitVal (c : Char) : Option Nat :=
  if '0' ≤ c ∧ c ≤ '9' then some (c.toNat - 48) else none

/-- Accumulating worker for `digitsToNat`. -/
def digitsToNatAux : List Char → Nat → Option Nat
  | [], acc => some acc
  | c :: cs, acc =>
    match digitVal c with
    | some d => digitsToNatAux cs (acc * 10 + d)
    | none => none

/-- Parse a non-empty all-digit field, as the `%Y`/`%m`/`%d`/`%H`/`%M`
directives of `datetime.strptime` and `datetime.fromisoformat` do. -/
def digitsToNat (l : List Char) : Option Nat :=
  match l with
  | [] => none
  | _ => digitsToNatAux l 0

/-- ASCII lowering of one character; embedding of `str.lower` restricted to
the ASCII names appearing in the collections. -/
def charToLower (c : Char) : Char :=
  if 'A' ≤ c ∧ c ≤ 'Z' then Char.ofNat (c.toNat + 32) else c

/-- Embedding of Python's `s.lower()` (ASCII), produced as a `List Char`
since it is only ever used for equality comparison. -/
def pyLower (s : String) : List Char :=
  s.data.map charToLower

/-! ### Calendar arithmetic -/

/-- Gregorian leap-year test. -/
def isLeap (y : Int) : Bool :=
  (y % 4 == 0 && y % 100 != 0) || y % 400 == 0

/-- Number of days in a month, used to validate the day-of-month field
exactly as `datetime.strptime` does. -/
def daysInMonth (y m : Int) : Int :=
  if m = 2 then (if isLeap y then 29 else 28)
  else if m = 4 ∨ m = 6 ∨ m = 9 ∨ m = 11 then 30
  else 31

/-- Day number (days since 1970-01-01) of a Gregorian calendar date, the
standard civil-from-date conversion. -/
def daysFromCivil (y m d : Int) : Int :=
  let y2 := if m ≤ 2 then y - 1 else y
  let era := (if 0 ≤ y2 then y2 else y2 - 399) / 400
  let yoe := y2 - era * 400
  let mp := (m + 9).emod 12
  let doy := (153 * mp + 2) / 5 + d - 1
  let doe := yoe * 365 + yoe / 4 - yoe / 100 + doy
  era * 146097 + doe - 719468

/-- Minutes-of-day of a timestamp; embedding of `datetime.time()` under the
minute-resolution representation (Python compares `time` objects
lexicographically, which coincides with comparing minutes-of-day). -/
def timeOfDay (t : Int) : Int :=
  t.emod 1440

/-- Hour field of a timestamp; embedding of `datetime.hour`. -/
def hourOf (t : Int) : Int :=
  timeOfDay t / 60

/-- Embedding of `datetime.weekday()`: Monday = 0 .. Sunday = 6
(day 0, 1970-01-01, was a Thursday). -/
def pyWeekday (day : Int) : Int :=
  (day + 3).emod 7

/-- Convenience constructor for concrete timestamps: minutes since epoch of
the given calendar date and time of day. -/
def atTime (y m d hh mi : Int) : Int :=
  daysFromCivil y m d * 1440 + hh * 60 + mi

/-! ### Input-string parsers -/

/-- Embedding of `datetime.strptime(s, '%Y-%m-%d')`, returning the day
number; `none` models the `ValueError` raised on malformed input. -/
def parseDate (s : List Char) : Option Int :=
  match splitSeqAux ['-'] s.length s [] with
  | [ys, ms, ds] => do
    let y ← digitsToNat ys
    let m ← digitsToNat ms
    let d ← digitsToNat ds
    if 1 ≤ m ∧ m ≤ 12 ∧ 1 ≤ d ∧ (d : Int) ≤ daysInMonth y m then
      some (daysFromCivil y m d)
    else none
  | _ => none

/-- Parse an "HH:MM" time-of-day to minutes, validating field ranges as
`strptime('%H:%M')` / `fromisoformat` do. -/
def parseTime (s : List Char) : Option Int :=
  match splitSeqAux [':'] s.length s [] with
  | [hs, ms] => do
    let h ← digitsToNat hs
    let mi ← digitsToNat ms
    if h ≤ 23 ∧ mi ≤ 59 then some ((h : Int) * 60 + mi) else none
  | _ => none

/-- Embedding of `datetime.fromisoformat` on "YYYY-MM-DDTHH:MM" input,
returning minutes since epoch; `none` models the `ValueError` on
malformed input. -/
def parseDateTime (s : List Char) : Option Int :=
  match splitSeqAux ['T'] s.length s [] with
  | [ds, ts] => do
    let d ← parseDate ds
    let t ← parseTime ts
    some (d * 1440 + t)
  | _ => none

/-- Embedding of `time_range.split(' to ')` followed by the two
`fromisoformat` calls in `detect_scheduling_conflicts`; `none` models the
`ValueError` of either the 2-tuple unpacking or a timestamp parse. -/
def parseTimeRange (s : String) : Option (Int × Int) :=
  match pySplit " to " s with
  | [a, b] => do
    let x ← parseDateTime a
    let y ← parseDateTime b
    some (x, y)
  | _ => none

/-- Embedding of `date_range.split(' to ')` followed by the two
`strptime('%Y-%m-%d')` calls in `find_optimal_slots`, returning the two
day numbers. -/
def parseDateRange (s : String) : Option (Int × Int) :=
  match pySplit " to " s with
  | [a, b] => do
    let x ← parseDate a
    let y ← parseDate b
    some (x, y)
  | _ => none

/-! ### Data model -/

/-- A record of the users collection.  `id` is `none` for records without an
`id` key (in particular the synthetic users built for unknown participants);
`workHours` is the parsed `work_hours` pair of minutes-of-day, `none` when
the key is absent. -/
structure User where
  id : Option String
  name : String
  timezone : String
  workHours : Option (Int × Int)
  deriving Repr, DecidableEq

/-- A record of the meetings collection.  `stop` is the record's `end` key
(`end` is a Lean keyword); both bounds are minutes since epoch. -/
structure Meeting where
  id : String
  title : String
  participants : List String
  start : Int
  stop : Int
  deriving Repr, DecidableEq

/-- One entry of an availability record's `conflicts` list: id, title and
time range of an overlapping meeting (the Python dict's `meeting_time`
string is carried as the two timestamps). -/
structure ConflictRef where
  meeting_id : String
  meeting_title : String
  meeting_start : Int
  meeting_stop : Int
  deriving Repr, DecidableEq

/-- Result record of `check_user_availability`. -/
structure Availability where
  available : Bool
  in_work_hours : Bool
  conflicts : List ConflictRef
  deriving Repr, DecidableEq

/-! ### Availability Checker (`check_user_availability`) -/

/-- Membership test `user['name'] in meeting['participants'] or
user.get('id') in meeting['participants']` (a `none` id matches nothing,
as Python's `None in [...]` is false for string lists). -/
def namesMeeting (u : User) (m : Meeting) : Bool :=
  m.participants.contains u.name ||
    (match u.id with
     | some i => m.participants.contains i
     | none => false)

/-- The conflicts list built by `check_user_availability`: meetings naming
the user whose span overlaps `[s, e)` under the half-open test
`start < meeting_end and end > meeting_start`. -/
def overlapConflicts (u : User) (s e : Int) (ms : List Meeting) : List ConflictRef :=
  (ms.filter (fun m => namesMeeting u m && decide (s < m.stop) && decide (e > m.start))).map
    (fun m => ⟨m.id, m.title, m.start, m.stop⟩)

/-- Embedding of `check_user_availability(user, start, end, meetings)`.
The function first reads `user['work_hours']` (a missing key raises
`KeyError`, modelled as `.error`), then compares times-of-day for
`in_work_hours` and collects the overlapping meetings. -/
def checkUserAvailability (u : User) (s e : Int) (ms : List Meeting) :
    Except String Availability :=
  match u.workHours with
  | none => .error "KeyError: work_hours"
  | some (ws, we) =>
    let inWork := decide (ws ≤ timeOfDay s) && decide (timeOfDay e ≤ we)
    let cs := overlapConflicts u s e ms
    .ok ⟨cs.length == 0, inWork, cs⟩

/-! ### Slot Recommender (`find_optimal_slots`) -/

/-- One per-participant entry of a slot's `availability_details`. -/
structure Detail where
  user : String
  available : Bool
  conflicts : List ConflictRef
  in_work_hours : Bool
  deriving Repr, DecidableEq

/-- A candidate slot as appended to `optimal_slots`. -/
structure Slot where
  start : Int
  stop : Int
  score : Int
  availability_details : List Detail
  deriving Repr, DecidableEq

/-- Synthetic user built for a participant name that resolves to no record:
UTC timezone and a default 09:00-17:00 work window. -/
def syntheticUser (name : String) : User :=
  ⟨none, name, "UTC", some (540, 1020)⟩

/-- Resolution of one participant name: first user whose lowered name
matches the lowered participant (`next(..., None)`), else a synthetic
user. -/
def resolveParticipant (users : List User) (p : String) : User :=
  match users.find? (fun u => pyLower u.name == pyLower p) with
  | some u => u
  | none => syntheticUser p

/-- The `participant_users` list: one resolved user per participant name,
in order. -/
def resolveParticipants (users : List User) (ps : List String) : List User :=
  ps.map (resolveParticipant users)

/-- The `participant_meetings` filter: meetings whose participant list
contains any of the requested participant names (exact, case-sensitive
membership, as in the source). -/
def participantMeetings (meetings : List Meeting) (ps : List String) : List Meeting :=
  meetings.filter (fun m => ps.any (fun p => m.participants.contains p))

/-- The per-slot participant loop: runs `check_user_availability` for each
participant user in order, accumulating the additive `conflict_score`
(+10 per unavailable participant, +5 per participant outside work hours)
and the `availability_details` list.  An exception from the checker aborts
the whole computation, as in the source. -/
def evalAnchor (pus : List User) (ms : List Meeting) (s e : Int) :
    Except String (Int × List Detail) :=
  match pus with
  | [] => .ok (0, [])
  | u :: rest =>
    match checkUserAvailability u s e ms with
    | .error msg => .error msg
    | .ok a =>
      match evalAnchor rest ms s e with
      | .error msg => .error msg
      | .ok (sc, ds) =>
        .ok ((if a.available then 0 else 10) + (if a.in_work_hours then 0 else 5) + sc,
             ⟨u.name, a.available, a.conflicts, a.in_work_hours⟩ :: ds)

/-- Slots contributed by one anchor: the slot is appended to
`optimal_slots` exactly when its score is `< 10`. -/
def anchorSlots (pus : List User) (ms : List Meeting) (s e : Int) :
    Except String (List Slot) :=
  (evalAnchor pus ms s e).map fun p =>
    if p.1 < 10 then [⟨s, e, p.1, p.2⟩] else []

/-- The hourly anchor grid `range(9, 17)`. -/
def hoursRange : List Int :=
  (List.range 8).map (fun i => 9 + (i : Int))

/-- Left-to-right effectful iteration appending per-step result lists, the
shape of the slot-accumulating loops: the first exception aborts the whole
computation, exactly as an uncaught Python exception would. -/
def mapJoinE {α β : Type} (f : α → Except String (List β)) : List α → Except String (List β)
  | [] => .ok []
  | a :: as =>
    match f a with
    | .error msg => .error msg
    | .ok bs =>
      match mapJoinE f as with
      | .error msg => .error msg
      | .ok rest => .ok (bs ++ rest)

/-- Candidate slots of one (week)day: anchors on the hourly grid, where an
anchor is skipped when `slot_end.hour > 17` (the source's work-hours
guard), the surviving anchors scored left to right. -/
def genDaySlots (pus : List User) (ms : List Meeting) (day duration : Int) :
    Except String (List Slot) :=
  let anchors := hoursRange.filterMap (fun h =>
    let s := day * 1440 + h * 60
    let e := s + duration
    if hourOf e > 17 then none else some (s, e))
  mapJoinE (fun se => anchorSlots pus ms se.1 se.2) anchors

/-- Inclusive day range of the `while current_date <= end_date` loop. -/
def dayRange (d0 d1 : Int) : List Int :=
  (List.range (d1 + 1 - d0).toNat).map (fun i => d0 + (i : Int))

/-- The full `optimal_slots` list: every day of the range with
`weekday() < 5` (weekends skipped), days in order, hours in order. -/
def genSlots (pus : List User) (ms : List Meeting) (duration d0 d1 : Int) :
    Except String (List Slot) :=
  mapJoinE (fun d => genDaySlots pus ms d duration)
    ((dayRange d0 d1).filter (fun d => pyWeekday d < 5))

/-- Stable insertion of a slot into a score-sorted list: the new slot
passes only strictly smaller scores, so it lands before any slot of equal
score that was discovered after it. -/
def insertSlot (x : Slot) : List Slot → List Slot
  | [] => [x]
  | y :: ys => if y.score < x.score then y :: insertSlot x ys else x :: y :: ys

/-- Stable ascending sort by score; embedding of the source's
`optimal_slots.sort(key=lambda x: x['score'])` (Python's sort is stable,
so ties keep discovery order). -/
def sortSlots : List Slot → List Slot
  | [] => []
  | x :: xs => insertSlot x (sortSlots xs)

/-- Embedding of `generate_slot_reasoning`. -/
def generateSlotReasoning (slot : Slot) : String :=
  let details := slot.availability_details
  let availableCount := (details.filter (fun d => d.available)).length
  let workHoursCount := (details.filter (fun d => d.in_work_hours)).length
  let total := details.length
  if slot.score == 0 then
    s!"Perfect slot: All {availableCount} participants available during work hours"
  else if availableCount == total then
    s!"Good slot: All participants available, {workHoursCount} within work hours"
  else
    s!"Suboptimal: {availableCount}/{total} participants available"

/-- One ranked recommendation of the result (the `start`/`end` isoformat
strings are carried as timestamps). -/
structure Recommendation where
  rank : Nat
  start : Int
  stop : Int
  confidence : String
  reasoning : String
  participants_available : Nat
  total_participants : Nat
  deriving Repr, DecidableEq

/-- Build one recommendation from a kept slot, as in the `enumerate`
loop over `top_slots`. -/
def mkRecommendation (slot : Slot) (rank total : Nat) : Recommendation :=
  ⟨rank, slot.start, slot.stop,
   if slot.score == 0 then "High" else "Medium",
   generateSlotReasoning slot,
   (slot.availability_details.filter (fun d => d.available)).length,
   total⟩

/-- The `enumerate(top_slots)` loop: ranks count up from `rank`. -/
def mkRecsAux (total : Nat) (rank : Nat) : List Slot → List Recommendation
  | [] => []
  | slot :: rest => mkRecommendation slot rank total :: mkRecsAux total (rank + 1) rest

/-- Successful result payload of `find_optimal_slots` (the
`search_criteria` echo of the inputs is carried verbatim). -/
structure FindReport where
  message : String
  recommendations : List Recommendation
  criteria_participants : List String
  criteria_duration : Int
  criteria_date_range : String
  deriving Repr, DecidableEq

/-- Success message f-string of `find_optimal_slots`. -/
def foundMessage (nRecs nParts : Nat) : String :=
  s!"Found {nRecs} optimal slots for {nParts} participants"

/-- Body of `find_optimal_slots` after the date range has been parsed:
resolve participants (empty participant list is the structured "No valid
participants found" error), filter their meetings, enumerate and score
candidate slots, stable-sort by score, keep the top 5 and attach
recommendations. -/
def findOptimalSlotsCore (users : List User) (meetings : List Meeting)
    (participants : List String) (duration d0 d1 : Int) :
    Except String FindReport :=
  if (resolveParticipants users participants).isEmpty then
    .error "No valid participants found"
  else
    match genSlots (resolveParticipants users participants)
        (participantMeetings meetings participants) duration d0 d1 with
    | .error e => .error ("Error finding optimal slots: " ++ e)
    | .ok slots =>
      .ok ⟨foundMessage (mkRecsAux participants.length 1 ((sortSlots slots).take 5)).length
             participants.length,
           mkRecsAux participants.length 1 ((sortSlots slots).take 5),
           participants, duration, ""⟩

/-- Embedding of `find_optimal_slots(participants, duration, date_range)`
with the user and meeting collections injected; a malformed date range is
the `ValueError` caught by the outer handler. -/
def findOptimalSlots (users : List User) (meetings : List Meeting)
    (participants : List String) (duration : Int) (dateRange : String) :
    Except String FindReport :=
  match parseDateRange dateRange with
  | none => .error "Error finding optimal slots: date range parse error"
  | some (d0, d1) =>
    match findOptimalSlotsCore users meetings participants duration d0 d1 with
    | .error e => .error e
    | .ok r => .ok { r with criteria_date_range := dateRange }

/-! ### Conflict Detector (`detect_scheduling_conflicts`) -/

/-- One entry of the detector's `meetings` list: a matching meeting
enriched with the intersection of its span with the query window. -/
structure UserMeeting where
  meeting_id : String
  title : String
  start : Int
  stop : Int
  participants : List String
  overlap_start : Int
  overlap_stop : Int
  deriving Repr, DecidableEq

/-- A conflict record: either two mutually overlapping meetings (severity
high) or one meeting outside the user's work hours (severity medium). -/
inductive Conflict where
  | overlapping (m1_id m1_title : String) (m1_start m1_stop : Int)
      (m2_id m2_title : String) (m2_start m2_stop : Int)
      (overlap_duration_minutes : Int) (overlap_start overlap_stop : Int)
  | outsideWorkHours (m_id m_title : String) (m_start m_stop : Int)
      (work_start work_stop : Int)
  deriving Repr, DecidableEq

/-- The `type` tag of a conflict dict. -/
def Conflict.ctype : Conflict → String
  | .overlapping .. => "overlapping_meetings"
  | .outsideWorkHours .. => "outside_work_hours"

/-- The `severity` tag of a conflict dict. -/
def Conflict.severity : Conflict → String
  | .overlapping .. => "high"
  | .outsideWorkHours .. => "medium"

/-- Overlap duration of an overlapping-meetings conflict (in minutes). -/
def Conflict.overlapMinutes : Conflict → Option Int
  | .overlapping _ _ _ _ _ _ _ _ dur _ _ => some dur
  | .outsideWorkHours .. => none

/-- The user-lookup loop of the detector: returns the first record whose
`id` equals the query or whose lowered name equals the lowered query.
The loop reads `u['id']` of every record it passes, so a record without
an `id` key raises `KeyError` (modelled as `.error`); in particular a
returned record always has an id. -/
def findUserRecord (users : List User) (userId : String) :
    Except String (Option User) :=
  match users with
  | [] => .ok none
  | u :: rest =>
    match u.id with
    | none => .error "KeyError: id"
    | some i =>
      if i == userId || pyLower u.name == pyLower userId then .ok (some u)
      else findUserRecord rest userId

/-- The `user_meetings` collection loop: meetings naming the user (by id
or name, id tested first as in the source) that overlap the query window
`[cs, ce)` under the half-open test, each enriched with the clipped
overlap span `max(starts)..min(ends)`. -/
def collectUserMeetings (uid uname : String) (meetings : List Meeting)
    (cs ce : Int) : List UserMeeting :=
  (meetings.filter (fun m =>
      (m.participants.contains uid || m.participants.contains uname) &&
        decide (m.start < ce) && decide (m.stop > cs))).map
    (fun m => ⟨m.id, m.title, m.start, m.stop, m.participants,
               max cs m.start, min ce m.stop⟩)

/-- The pairwise `i < j` overlap scan over `user_meetings`: each mutually
overlapping pair yields one high-severity conflict carrying both meeting
summaries and the overlap span and duration. -/
def pairwiseOverlaps : List UserMeeting → List Conflict
  | [] => []
  | m1 :: rest =>
    (rest.filterMap (fun m2 =>
      if m1.start < m2.stop ∧ m1.stop > m2.start then
        some (.overlapping m1.meeting_id m1.title m1.start m1.stop
              m2.meeting_id m2.title m2.start m2.stop
              (min m1.stop m2.stop - max m1.start m2.start)
              (max m1.start m2.start) (min m1.stop m2.stop))
      else none)) ++ pairwiseOverlaps rest

/-- The work-hours scan over `user_meetings`: a meeting whose start
time-of-day is before `work_start` or whose end time-of-day is after
`work_end` yields one medium-severity conflict. -/
def outsideWorkConflicts (ws we : Int) (ums : List UserMeeting) : List Conflict :=
  ums.filterMap (fun m =>
    if timeOfDay m.start < ws ∨ we < timeOfDay m.stop then
      some (.outsideWorkHours m.meeting_id m.title m.start m.stop ws we)
    else none)

/-- Exact rational rounding to one decimal place, embedding Python's
`round(x, 1)` (Python's float half-even rounding differs only on exact
`.05` ties, which is immaterial to the stated properties). -/
def round1 (q : ℚ) : ℚ :=
  (⌊q * 10 + 1 / 2⌋ : ℤ) / 10

/-- The insight summary of `generate_conflict_insights`. -/
structure Insights where
  meeting_load_percentage : ℚ
  total_meeting_time_minutes : Int
  severity_high : Nat
  severity_medium : Nat
  recommendations : List String
  status : String
  deriving Repr, DecidableEq

/-- Embedding of `generate_conflict_insights(user, conflicts, meetings,
start, end)`: total (unclipped) meeting minutes over the window length as
a percentage (0 when the window is empty or inverted), severity counts,
threshold-chosen recommendation strings (thresholds read the unrounded
percentage), and the status tag. -/
def generateConflictInsights (conflicts : List Conflict)
    (meetings : List UserMeeting) (s e : Int) : Insights :=
  let totalMeetingTime := (meetings.map (fun m => m.stop - m.start)).sum
  let totalPeriodMinutes := e - s
  let load : ℚ :=
    if 0 < totalPeriodMinutes then
      ((totalMeetingTime : ℚ) / (totalPeriodMinutes : ℚ)) * 100
    else 0
  let high := (conflicts.filter (fun c => c.severity == "high")).length
  let medium := (conflicts.filter (fun c => c.severity == "medium")).length
  let recs :=
    (if 0 < high then ["⚠️ Critical: Resolve overlapping meetings immediately"] else []) ++
    (if 0 < medium then ["⚡ Consider rescheduling meetings outside work hours"] else []) ++
    (if 80 < load then ["📊 High meeting load detected - consider reducing meetings"]
     else if 60 < load then ["📊 Moderate meeting load - monitor workload"] else []) ++
    (if conflicts.length == 0 then ["✅ No conflicts detected - schedule looks good!"] else [])
  ⟨round1 load, totalMeetingTime, high, medium, recs,
   if 0 < high then "critical" else if 0 < medium then "warning" else "good"⟩

/-- The `user` echo of a successful detector result. -/
structure UserEcho where
  id : String
  name : String
  timezone : String
  work_hours : Int × Int
  deriving Repr, DecidableEq

/-- The `time_range` echo of a successful detector result. -/
structure TimeRangeEcho where
  start : Int
  stop : Int
  duration_hours : ℚ
  deriving Repr, DecidableEq

/-- Successful result payload of `detect_scheduling_conflicts`. -/
structure DetectReport where
  user : UserEcho
  time_range : TimeRangeEcho
  meetings_in_range : Nat
  conflicts_found : Nat
  conflicts : List Conflict
  meetings : List UserMeeting
  insights : Insights
  deriving Repr, DecidableEq

/-- Embedding of `detect_scheduling_conflicts(user_id, time_range)` with
the collections injected.  Order of effects as in the source: user lookup
(unknown user is the structured not-found failure, a lookup `KeyError` is
caught by the boundary handler), time-range parse (`ValueError` caught),
meeting collection, pairwise overlap scan, `work_hours` read (`KeyError`
caught), work-hours scan, insights, success payload. -/
def detectSchedulingConflicts (users : List User) (meetings : List Meeting)
    (userId : String) (timeRange : String) : Except String DetectReport :=
  match findUserRecord users userId with
  | .error e => .error ("Error detecting conflicts: " ++ e)
  | .ok none => .error ("User '" ++ userId ++ "' not found")
  | .ok (some u) =>
    match parseTimeRange timeRange with
    | none => .error "Error detecting conflicts: time range parse error"
    | some (cs, ce) =>
      match u.id with
      | none => .error "Error detecting conflicts: KeyError: id"
      | some uid =>
        let ums := collectUserMeetings uid u.name meetings cs ce
        let overl := pairwiseOverlaps ums
        match u.workHours with
        | none => .error "Error detecting conflicts: KeyError: work_hours"
        | some (ws, we) =>
          let conflicts := overl ++ outsideWorkConflicts ws we ums
          .ok ⟨⟨uid, u.name, u.timezone, (ws, we)⟩,
               ⟨cs, ce, ((ce - cs : Int) : ℚ) / 60⟩,
               ums.length, conflicts.length, conflicts, ums,
               generateConflictInsights conflicts ums cs ce⟩

/-! ### Shared projection helpers and concrete records used by the
verification theorems -/

/-- Extract the success payload of an `Except`, with an explicit fallback. -/
def getOk {α : Type} (d : α) : Except String α → α
  | .ok x => x
  | .error _ => d

/-- Projection of a slot-recommender result to the recommendations' start
and end timestamps. -/
def recommendationTimes : Except String FindReport → Option (List (Int × Int))
  | .ok r => some (r.recommendations.map (fun rec => (rec.start, rec.stop)))
  | .error _ => none

/-- Placeholder availability record (fallback for `getOk`). -/
def dummyAvail : Availability := ⟨false, false, []⟩

/-- Placeholder recommendation (fallback for `getOk`). -/
def dummyRec : Recommendation := ⟨0, 0, 0, "", "", 0, 0⟩

/-- Placeholder slot-recommender report (fallback for `getOk`). -/
def dummyFindReport : FindReport := ⟨"", [], [], 0, ""⟩

/-- Placeholder detector report (fallback for `getOk`). -/
def dummyDetectReport : DetectReport :=
  ⟨⟨"", "", "", (0, 0)⟩, ⟨0, 0, 0⟩, 0, 0, [], [], ⟨0, 0, 0, 0, [], ""⟩⟩

/-- Concrete user record of the spec's scenarios: Alice with work hours
09:00-17:00. -/
def alice : User := ⟨some "u1", "Alice", "Asia/Kolkata", some (540, 1020)⟩

/-- Concrete user record whose `work_hours` key is absent. -/
def dave : User := ⟨some "u2", "Dave", "UTC", none⟩

/-- Alice's two meetings of the overlap scenario: 10:00-11:00 and
10:30-11:30 on 2024-06-03. -/
def aliceMeetings : List Meeting :=
  [⟨"m1", "Standup", ["Alice"], atTime 2024 6 3 10 0, atTime 2024 6 3 11 0⟩,
   ⟨"m2", "Design Review", ["Alice"], atTime 2024 6 3 10 30, atTime 2024 6 3 11 30⟩]

/-- Two meetings of Alice covering the same 10:00-11:00 span: both lie
inside the 10:00-11:00 query window, but they overlap each other. -/
def doubledMeetings : List Meeting :=
  [⟨"m1", "Standup", ["Alice"], atTime 2024 6 3 10 0, atTime 2024 6 3 11 0⟩,
   ⟨"m2", "Retro", ["Alice"], atTime 2024 6 3 10 0, atTime 2024 6 3 11 0⟩]

/-- Single meeting of Alice, 10:00-11:00 on 2024-06-03. -/
def soloMeetings : List Meeting :=
  [⟨"m1", "Standup", ["Alice"], atTime 2024 6 3 10 0, atTime 2024 6 3 11 0⟩]

/-- Concrete participant fold run used to instantiate the scoring theorem. -/
def sampleAnchorRun : Int × List Detail :=
  getOk (0, []) (evalAnchor [alice] aliceMeetings (atTime 2024 6 3 10 0)
    (atTime 2024 6 3 10 30))

/-- Concrete recommender run on a 510-minute request over a single Monday:
the run whose output exhibits the end-of-day boundary bug. -/
def longDurationRun : Except String FindReport :=
  findOptimalSlots [] [] ["Zara"] 510 "2024-06-03 to 2024-06-03"

/-- Concrete recommender run on a routine 30-minute request. -/
def shortDurationRun : Except String FindReport :=
  findOptimalSlots [] [] ["Zara"] 30 "2024-06-03 to 2024-06-03"

/-- First recommendation of the long-duration run. -/
def longDurationFirstRec : Recommendation :=
  ((getOk dummyFindReport longDurationRun).recommendations).headD dummyRec

/-- Concrete detector run with one in-window meeting and a clean window. -/
def soloDetectReport : DetectReport :=
  getOk dummyDetectReport (detectSchedulingConflicts [alice] soloMeetings "Alice"
    "2024-06-03T09:00 to 2024-06-03T17:00")

/-- Concrete detector run where two mutually overlapping meetings fill the
whole query window twice over. -/
def doubledDetectReport : DetectReport :=
  getOk dummyDetectReport (detectSchedulingConflicts [alice] doubledMeetings "Alice"
    "2024-06-03T10:00 to 2024-06-03T11:00")

/-- Concrete detector run of the overlap scenario. -/
def scenarioDetectReport : DetectReport :=
  getOk dummyDetectReport (detectSchedulingConflicts [alice] aliceMeetings "Alice"
    "2024-06-03T00:00 to 2024-06-03T23:59")

/-- Availability record of a slot crossing midnight (16:00 on 2024-06-03 to
15:00 on 2024-06-04) for Alice. -/
def midnightAvail : Availability :=
  getOk dummyAvail (checkUserAvailability alice (atTime 2024 6 3 16 0)
    (atTime 2024 6 4 15 0) [])

/-- Availability record of a routine in-hours slot against an empty
meeting set. -/
def emptyMeetingsAvail : Availability :=
  getOk dummyAvail (checkUserAvailability alice (atTime 2024 6 3 10 0)
    (atTime 2024 6 3 11 0) [])

/-! ### Helper lemmas about the slot-generation pipeline -/

/-- The participant fold computes the additive score of its details list
and produces one detail per participant user. -/
theorem evalAnchor_ok_spec (ms : List Meeting) (s e : Int) :
    ∀ (pus : List User) (sc : Int) (ds : List Detail),
      evalAnchor pus ms s e = .ok (sc, ds) →
      sc = 10 * (ds.countP (fun d => !d.available) : ℤ) +
          5 * (ds.countP (fun d => !d.in_work_hours) : ℤ) ∧
        ds.length = pus.length := by
  intro pus
  induction pus with
  | nil =>
    intro sc ds h
    simp only [evalAnchor, Except.ok.injEq, Prod.mk.injEq] at h
    obtain ⟨h1, h2⟩ := h
    subst h1
    subst h2
    simp
  | cons u rest ih =>
    intro sc ds h
    cases hca : checkUserAvailability u s e ms with
    | error msg =>
      simp only [evalAnchor, hca] at h
      exact Except.noConfusion h
    | ok a =>
      cases he : evalAnchor rest ms s e with
      | error msg =>
        simp only [evalAnchor, hca, he] at h
        exact Except.noConfusion h
      | ok p =>
        obtain ⟨sc', ds'⟩ := p
        simp only [evalAnchor, hca, he, Except.ok.injEq, Prod.mk.injEq] at h
        obtain ⟨h1, h2⟩ := h
        subst h1
        subst h2
        obtain ⟨ihs, ihl⟩ := ih sc' ds' he
        subst ihs
        clear hca he
        rcases a with ⟨av, iw, cf⟩
        cases av <;> cases iw <;>
          simp [List.countP_cons, ihl] <;> omega

/-- Every element of a successful `mapJoinE` run comes from the successful
run of `f` on some input element. -/
theorem mapJoinE_ok_mem {α β : Type} (f : α → Except String (List β)) :
    ∀ (l : List α) (bs : List β), mapJoinE f l = .ok bs →
      ∀ b ∈ bs, ∃ a ∈ l, ∃ lb, f a = .ok lb ∧ b ∈ lb := by
  intro l
  induction l with
  | nil =>
    intro bs h b hb
    simp only [mapJoinE, Except.ok.injEq] at h
    subst h
    simp at hb
  | cons a as ih =>
    intro bs h b hb
    cases hfa : f a with
    | error msg =>
      simp only [mapJoinE, hfa] at h
      exact Except.noConfusion h
    | ok bs1 =>
      cases hrest : mapJoinE f as with
      | error msg =>
        simp only [mapJoinE, hfa, hrest] at h
        exact Except.noConfusion h
      | ok bs2 =>
        simp only [mapJoinE, hfa, hrest, Except.ok.injEq] at h
        subst h
        rcases List.mem_append.mp hb with hb1 | hb2
        · exact ⟨a, List.mem_cons_self a as, bs1, hfa, hb1⟩
        · obtain ⟨a', ha', lb, hfa', hb'⟩ := ih bs2 hrest b hb2
          exact ⟨a', List.mem_cons_of_mem a ha', lb, hfa', hb'⟩

/-- A slot produced by one anchor records that anchor's bounds, a score
below 10, and the participant fold's output. -/
theorem anchorSlots_ok_mem (pus : List User) (ms : List Meeting) (s e : Int) :
    ∀ (l : List Slot), anchorSlots pus ms s e = .ok l →
      ∀ slot ∈ l, slot.start = s ∧ slot.stop = e ∧ slot.score < 10 ∧
        evalAnchor pus ms s e = .ok (slot.score, slot.availability_details) := by
  intro l h slot hs
  cases hev : evalAnchor pus ms s e with
  | error msg =>
    simp only [anchorSlots, hev, Except.map] at h
    exact Except.noConfusion h
  | ok p =>
    obtain ⟨sc, ds⟩ := p
    simp only [anchorSlots, hev, Except.map, Except.ok.injEq] at h
    subst h
    by_cases hlt : sc < 10
    · simp only [if_pos hlt, List.mem_singleton] at hs
      subst hs
      exact ⟨rfl, rfl, hlt, rfl⟩
    · simp only [if_neg hlt, List.not_mem_nil] at hs

/-- Every slot in a successful `genSlots` run scored below 10, and its
score and details are the participant fold's output at its own bounds. -/
theorem genSlots_ok_mem (pus : List User) (ms : List Meeting) (dur d0 d1 : Int) :
    ∀ (slots : List Slot), genSlots pus ms dur d0 d1 = .ok slots →
      ∀ slot ∈ slots, slot.score < 10 ∧
        evalAnchor pus ms slot.start slot.stop = .ok (slot.score, slot.availability_details) := by
  intro slots h slot hs
  obtain ⟨day, _, lb, hday, hmem⟩ := mapJoinE_ok_mem _ _ _ h slot hs
  obtain ⟨se, _, lb', hanch, hmem'⟩ := mapJoinE_ok_mem _ _ _ hday slot hmem
  obtain ⟨h1, h2, h3, h4⟩ := anchorSlots_ok_mem pus ms se.1 se.2 lb' hanch slot hmem'
  rw [h1, h2]
  exact ⟨h3, h4⟩

/-! ### Helper lemmas about the stable sort -/

/-- Membership through `insertSlot`. -/
theorem mem_insertSlot (x : Slot) :
    ∀ (l : List Slot) (y : Slot), y ∈ insertSlot x l ↔ y = x ∨ y ∈ l := by
  intro l
  induction l with
  | nil => intro y; simp [insertSlot]
  | cons z zs ih =>
    intro y
    by_cases hz : z.score < x.score
    · simp only [insertSlot, if_pos hz, List.mem_cons, ih]
      tauto
    · simp [insertSlot, if_neg hz]

/-- Membership through `sortSlots`: sorting permutes, so membership is
unchanged. -/
theorem mem_sortSlots :
    ∀ (l : List Slot) (y : Slot), y ∈ sortSlots l ↔ y ∈ l := by
  intro l
  induction l with
  | nil => intro y; simp [sortSlots]
  | cons z zs ih =>
    intro y
    simp only [sortSlots, mem_insertSlot, ih, List.mem_cons]

/-- Inserting into a score-sorted list keeps it score-sorted. -/
theorem insertSlot_sorted (x : Slot) :
    ∀ (l : List Slot), List.Sorted (fun a b : Slot => a.score ≤ b.score) l →
      List.Sorted (fun a b : Slot => a.score ≤ b.score) (insertSlot x l) := by
  intro l
  induction l with
  | nil => intro _; simp [insertSlot]
  | cons z zs ih =>
    intro hs
    rw [List.sorted_cons] at hs
    obtain ⟨hz, hzs⟩ := hs
    by_cases h : z.score < x.score
    · rw [insertSlot, if_pos h, List.sorted_cons]
      refine ⟨?_, ih hzs⟩
      intro y hy
      rcases (mem_insertSlot x zs y).mp hy with rfl | hyz
      · exact le_of_lt h
      · exact hz y hyz
    · rw [insertSlot, if_neg h, List.sorted_cons]
      refine ⟨?_, ?_⟩
      · intro y hy
        rcases List.mem_cons.mp hy with rfl | hyz
        · exact le_of_not_lt h
        · exact le_trans (le_of_not_lt h) (hz y hyz)
      · rw [List.sorted_cons]
        exact ⟨hz, hzs⟩

/-- The embedded sort produces a score-sorted list. -/
theorem sortSlots_sorted :
    ∀ (l : List Slot), List.Sorted (fun a b : Slot => a.score ≤ b.score) (sortSlots l) := by
  intro l
  induction l with
  | nil => simp [sortSlots]
  | cons z zs ih => exact insertSlot_sorted z (sortSlots zs) ih

/-- Slots of one fixed score are preserved in order by `insertSlot`: the
inserted slot passes only strictly smaller scores, so it lands in front of
every equal-scored slot already present. -/
theorem filter_insertSlot (x : Slot) (sc : Int) :
    ∀ (l : List Slot),
      (insertSlot x l).filter (fun y => y.score == sc) =
        if x.score = sc then x :: l.filter (fun y => y.score == sc)
        else l.filter (fun y => y.score == sc) := by
  intro l
  induction l with
  | nil =>
    by_cases hx : x.score = sc <;> simp [insertSlot, List.filter_cons, hx]
  | cons z zs ih =>
    by_cases hz : z.score < x.score
    · rw [insertSlot, if_pos hz]
      by_cases hx : x.score = sc
      · have hzne : ¬(z.score = sc) := by omega
        simp [List.filter_cons, hzne, ih, hx]
      · by_cases hzc : z.score = sc <;> simp [List.filter_cons, ih, if_neg hx, hzc]
    · rw [insertSlot, if_neg hz]
      by_cases hx : x.score = sc <;> simp [List.filter_cons, hx]

/-- Stability of the embedded sort: the subsequence of slots having any
one fixed score is exactly the same, in the same order, before and after
sorting (Python's `list.sort` is stable). -/
theorem sortSlots_filter (sc : Int) :
    ∀ (l : List Slot),
      (sortSlots l).filter (fun y => y.score == sc) =
        l.filter (fun y => y.score == sc) := by
  intro l
  induction l with
  | nil => simp [sortSlots]
  | cons z zs ih =>
    rw [sortSlots, filter_insertSlot, ih]
    by_cases hz : z.score = sc <;> simp [List.filter_cons, hz]

/-! ### Helper lemmas about recommendation building and the result shape -/

/-- One recommendation per kept slot. -/
theorem mkRecsAux_length (total : Nat) :
    ∀ (rank : Nat) (l : List Slot), (mkRecsAux total rank l).length = l.length := by
  intro rank l
  induction l generalizing rank with
  | nil => simp [mkRecsAux]
  | cons s ss ih => simp [mkRecsAux, ih]

/-- Every recommendation comes from one of the kept slots. -/
theorem mem_mkRecsAux (total : Nat) :
    ∀ (rank : Nat) (l : List Slot) (rec : Recommendation),
      rec ∈ mkRecsAux total rank l →
      ∃ slot ∈ l, ∃ k, rec = mkRecommendation slot k total := by
  intro rank l
  induction l generalizing rank with
  | nil => intro rec h; simp [mkRecsAux] at h
  | cons s ss ih =>
    intro rec h
    rw [mkRecsAux] at h
    rcases List.mem_cons.mp h with rfl | hm
    · exact ⟨s, List.mem_cons_self s ss, rank, rfl⟩
    · obtain ⟨slot, hsl, k, hk⟩ := ih (rank + 1) rec hm
      exact ⟨slot, List.mem_cons_of_mem s hsl, k, hk⟩

/-- Structure of a successful recommender run: the date range parsed, the
candidate generation succeeded, and the recommendations are built from the
top five of the stable sort of the candidates. -/
theorem findOptimalSlots_ok_shape :
    ∀ (users : List User) (meetings : List Meeting) (ps : List String)
      (dur : Int) (dr : String) (r : FindReport),
      findOptimalSlots users meetings ps dur dr = .ok r →
      ∃ d0 d1 cands, parseDateRange dr = some (d0, d1) ∧
        genSlots (resolveParticipants users ps) (participantMeetings meetings ps)
          dur d0 d1 = .ok cands ∧
        r.recommendations = mkRecsAux ps.length 1 ((sortSlots cands).take 5) := by
  intro users meetings ps dur dr r h
  cases hp : parseDateRange dr with
  | none =>
    simp only [findOptimalSlots, hp] at h
    exact Except.noConfusion h
  | some p =>
    obtain ⟨d0, d1⟩ := p
    simp only [findOptimalSlots, hp] at h
    cases hc : findOptimalSlotsCore users meetings ps dur d0 d1 with
    | error e =>
      simp only [hc] at h
      exact Except.noConfusion h
    | ok r' =>
      simp only [hc, Except.ok.injEq] at h
      subst h
      by_cases hemp : (resolveParticipants users ps).isEmpty
      · simp only [findOptimalSlotsCore, hemp, if_true] at hc
        exact Except.noConfusion hc
      · rw [findOptimalSlotsCore, if_neg (by simpa using hemp)] at hc
        cases hg : genSlots (resolveParticipants users ps)
            (participantMeetings meetings ps) dur d0 d1 with
        | error e =>
          rw [hg] at hc
          exact Except.noConfusion hc
        | ok slots =>
          rw [hg] at hc
          simp only [Except.ok.injEq] at hc
          subst hc
          exact ⟨d0, d1, slots, rfl, hg, rfl⟩

/-! ### Helper lemmas about the conflict detector -/

/-- A user returned by the lookup loop always has an `id` (the loop reads
`u['id']` before it can match). -/
theorem findUserRecord_some_id :
    ∀ (users : List User) (uid : String) (u : User),
      findUserRecord users uid = .ok (some u) → ∃ i, u.id = some i := by
  intro users uid
  induction users with
  | nil =>
    intro u h
    simp [findUserRecord] at h
  | cons v rest ih =>
    intro u h
    cases hv : v.id with
    | none =>
      simp only [findUserRecord, hv] at h
      exact Except.noConfusion h
    | some i =>
      simp only [findUserRecord, hv] at h
      by_cases hm : (i == uid || pyLower v.name == pyLower uid) = true
      · rw [if_pos hm] at h
        simp only [Except.ok.injEq, Option.some.injEq] at h
        subst h
        exact ⟨i, hv⟩
      · rw [if_neg hm] at h
        exact ih u h

/-- Structure of a successful detector run: the counters mirror the lists
and the insights are computed from them over the echoed window. -/
theorem detect_ok_shape :
    ∀ (users : List User) (meetings : List Meeting) (uid tr : String)
      (r : DetectReport),
      detectSchedulingConflicts users meetings uid tr = .ok r →
      r.meetings_in_range = r.meetings.length ∧
        r.conflicts_found = r.conflicts.length ∧
        r.insights = generateConflictInsights r.conflicts r.meetings
          r.time_range.start r.time_range.stop := by
  intro users meetings uid tr r h
  cases hf : findUserRecord users uid with
  | error e =>
    simp only [detectSchedulingConflicts, hf] at h
    exact Except.noConfusion h
  | ok o =>
    cases o with
    | none =>
      simp only [detectSchedulingConflicts, hf] at h
      exact Except.noConfusion h
    | some u =>
      cases hp : parseTimeRange tr with
      | none =>
        simp only [detectSchedulingConflicts, hf, hp] at h
        exact Except.noConfusion h
      | some p =>
        obtain ⟨cs, ce⟩ := p
        cases hid : u.id with
        | none =>
          simp only [detectSchedulingConflicts, hf, hp, hid] at h
          exact Except.noConfusion h
        | some uid' =>
          cases hw : u.workHours with
          | none =>
            simp only [detectSchedulingConflicts, hf, hp, hid, hw] at h
            exact Except.noConfusion h
          | some wh =>
            obtain ⟨ws, we⟩ := wh
            simp only [detectSchedulingConflicts, hf, hp, hid, hw,
              Except.ok.injEq] at h
            subst h
            exact ⟨rfl, rfl, rfl⟩

/-! ### Helper lemmas for the meeting-load bound -/

/-- Splitting a sum over a list by a Boolean predicate. -/
theorem sum_map_filter_add {α : Type} (f : α → ℤ) (p : α → Bool) :
    ∀ (l : List α),
      ((l.filter p).map f).sum + ((l.filter (fun a => !p a)).map f).sum
        = (l.map f).sum := by
  intro l
  induction l with
  | nil => simp
  | cons a as ih =>
    cases hp : p a <;> simp [List.filter_cons, hp] <;> linarith

/-- Pairwise-disjoint subintervals of a window have total length at most
the window length. -/
theorem disjointSum_le :
    ∀ (n : Nat) (l : List UserMeeting) (S E : Int), l.length ≤ n → S ≤ E →
      (∀ m ∈ l, S ≤ m.start ∧ m.start ≤ m.stop ∧ m.stop ≤ E) →
      List.Pairwise (fun a b => a.stop ≤ b.start ∨ b.stop ≤ a.start) l →
      (l.map (fun m => m.stop - m.start)).sum ≤ E - S := by
  intro n
  induction n with
  | zero =>
    intro l S E hlen hSE _ _
    have hnil : l = [] := List.length_eq_zero.mp (Nat.le_zero.mp hlen)
    subst hnil
    simpa using hSE
  | succ n ih =>
    intro l S E hlen hSE hb hp
    cases l with
    | nil => simpa using hSE
    | cons m rest =>
      rw [List.pairwise_cons] at hp
      obtain ⟨hdis, hrest⟩ := hp
      obtain ⟨hmS, hmse, hmE⟩ := hb m (List.mem_cons_self m rest)
      have hlen' : rest.length ≤ n := by
        simp only [List.length_cons] at hlen
        omega
      have hsplit := sum_map_filter_add (fun x : UserMeeting => x.stop - x.start)
        (fun x => decide (x.stop ≤ m.start)) rest
      have hleft :
          ((rest.filter (fun x => decide (x.stop ≤ m.start))).map
            (fun x : UserMeeting => x.stop - x.start)).sum ≤ m.start - S := by
        refine ih _ S m.start (le_trans (List.length_filter_le _ _) hlen') hmS ?_
          (hrest.sublist (List.filter_sublist _))
        intro x hx
        rw [List.mem_filter] at hx
        obtain ⟨hx1, hx2⟩ := hx
        have hbx := hb x (List.mem_cons_of_mem m hx1)
        simp only [decide_eq_true_eq] at hx2
        exact ⟨hbx.1, hbx.2.1, hx2⟩
      have hright :
          ((rest.filter (fun x => !decide (x.stop ≤ m.start))).map
            (fun x : UserMeeting => x.stop - x.start)).sum ≤ E - m.stop := by
        refine ih _ m.stop E (le_trans (List.length_filter_le _ _) hlen') hmE ?_
          (hrest.sublist (List.filter_sublist _))
        intro x hx
        rw [List.mem_filter] at hx
        obtain ⟨hx1, hx2⟩ := hx
        have hbx := hb x (List.mem_cons_of_mem m hx1)
        simp only [Bool.not_eq_true', decide_eq_false_iff_not] at hx2
        rcases hdis x hx1 with hd | hd
        · exact ⟨hd, hbx.2.1, hbx.2.2⟩
        · exact absurd hd hx2
      rw [List.map_cons, List.sum_cons]
      linarith

/-- Rounding to one decimal stays inside `[0, 100]`. -/
theorem round1_bounds : ∀ (q : ℚ), 0 ≤ q → q ≤ 100 → 0 ≤ round1 q ∧ round1 q ≤ 100 := by
  intro q h0 h100
  unfold round1
  constructor
  · apply div_nonneg _ (by norm_num)
    have hfl : (0 : ℤ) ≤ ⌊q * 10 + 1 / 2⌋ := by
      apply Int.le_floor.mpr
      push_cast
      linarith
    exact_mod_cast hfl
  · rw [div_le_iff₀ (by norm_num)]
    have hfl : ⌊q * 10 + 1 / 2⌋ < 1001 := by
      apply Int.floor_lt.mpr
      push_cast
      linarith
    have hfl' : ⌊q * 10 + 1 / 2⌋ ≤ 1000 := by omega
    calc ((⌊q * 10 + 1 / 2⌋ : ℤ) : ℚ) ≤ 1000 := by exact_mod_cast hfl'
      _ = 100 * 10 := by norm_num

/-- Rounding fixes zero. -/
theorem round1_zero : round1 0 = 0 := by
  unfold round1
  have hfl : ⌊(0 : ℚ) * 10 + 1 / 2⌋ = 0 := by
    rw [Int.floor_eq_zero_iff]
    constructor <;> norm_num
  rw [hfl]
  norm_num

/-- The reported meeting-load percentage lies in `[0, 100]` whenever the
matching meetings are proper subintervals of the window and mutually
disjoint, and it is `0` for an empty meeting list. -/
theorem insights_load_bounds :
    ∀ (conflicts : List Conflict) (l : List UserMeeting) (S E : Int), S ≤ E →
      (∀ m ∈ l, S ≤ m.start ∧ m.start ≤ m.stop ∧ m.stop ≤ E) →
      List.Pairwise (fun a b => a.stop ≤ b.start ∨ b.stop ≤ a.start) l →
      0 ≤ (generateConflictInsights conflicts l S E).meeting_load_percentage ∧
        (generateConflictInsights conflicts l S E).meeting_load_percentage ≤ 100 ∧
        (l = [] →
          (generateConflictInsights conflicts l S E).meeting_load_percentage = 0) := by
  intro conflicts l S E hSE hb hp
  have htotal0 : 0 ≤ (l.map (fun m => m.stop - m.start)).sum := by
    apply List.sum_nonneg
    intro x hx
    rw [List.mem_map] at hx
    obtain ⟨m, hm, rfl⟩ := hx
    have := hb m hm
    omega
  have htotal1 := disjointSum_le l.length l S E (le_refl _) hSE hb hp
  simp only [generateConflictInsights]
  by_cases hpos : (0 : ℤ) < E - S
  · rw [if_pos hpos]
    have hposq : (0 : ℚ) < ((E - S : ℤ) : ℚ) := by exact_mod_cast hpos
    have hq0 : 0 ≤ (((l.map (fun m => m.stop - m.start)).sum : ℤ) : ℚ) /
        ((E - S : ℤ) : ℚ) * 100 := by
      apply mul_nonneg _ (by norm_num)
      apply div_nonneg _ (le_of_lt hposq)
      exact_mod_cast htotal0
    have hq100 : (((l.map (fun m => m.stop - m.start)).sum : ℤ) : ℚ) /
        ((E - S : ℤ) : ℚ) * 100 ≤ 100 := by
      have hdiv : (((l.map (fun m => m.stop - m.start)).sum : ℤ) : ℚ) /
          ((E - S : ℤ) : ℚ) ≤ 1 := by
        rw [div_le_one hposq]
        exact_mod_cast htotal1
      nlinarith
    obtain ⟨hr0, hr100⟩ := round1_bounds _ hq0 hq100
    refine ⟨hr0, hr100, ?_⟩
    intro hnil
    subst hnil
    simp only [List.map_nil, List.sum_nil, Int.cast_zero, zero_div, zero_mul]
    exact round1_zero
  · rw [if_neg hpos]
    refine ⟨?_, ?_, ?_⟩ <;> simp [round1_zero]

/-! ### Claim theorems -/

/-- C5: for every candidate slot examined by `find_optimal_slots`, the
conflict score equals 10 per unavailable participant plus 5 per
participant outside work hours, and the anchor contributes the slot to
the candidate list exactly when that score is below 10 (any hard
unavailability forces the score to at least 10 and so discards the
slot). -/
theorem conflict_score_additive_and_cutoff :
    ∀ (pus : List User) (ms : List Meeting) (s e sc : Int) (ds : List Detail),
      evalAnchor pus ms s e = .ok (sc, ds) →
      sc = 10 * (ds.countP (fun d => !d.available) : ℤ) +
          5 * (ds.countP (fun d => !d.in_work_hours) : ℤ) ∧
        anchorSlots pus ms s e = .ok (if sc < 10 then [⟨s, e, sc, ds⟩] else []) := by
  intro pus ms s e sc ds h
  refine ⟨(evalAnchor_ok_spec ms s e pus sc ds h).1, ?_⟩
  rw [anchorSlots, h]
  rfl

/-- Witness for the scoring theorem: Alice against her two meetings at the
overlapping 10:00-10:30 anchor. -/
theorem conflict_score_additive_and_cutoff_witness :
    sampleAnchorRun.1 =
      10 * (sampleAnchorRun.2.countP (fun d => !d.available) : ℤ) +
        5 * (sampleAnchorRun.2.countP (fun d => !d.in_work_hours) : ℤ) ∧
      anchorSlots [alice] aliceMeetings (atTime 2024 6 3 10 0) (atTime 2024 6 3 10 30) =
        .ok (if sampleAnchorRun.1 < 10 then
          [⟨atTime 2024 6 3 10 0, atTime 2024 6 3 10 30,
            sampleAnchorRun.1, sampleAnchorRun.2⟩] else []) :=
  conflict_score_additive_and_cutoff [alice] aliceMeetings
    (atTime 2024 6 3 10 0) (atTime 2024 6 3 10 30)
    sampleAnchorRun.1 sampleAnchorRun.2 rfl

/-- C10: every recommendation returned by `find_optimal_slots` reports all
participants available (`participants_available` equals
`total_participants`), and the kept slots from which the recommendations
are built one-to-one all carry a score of exactly 0 or 5: a surviving
score `10a + 5b < 10` forces `a = 0` unavailable participants and at most
one participant outside work hours. -/
theorem recommendations_all_available_score_0_or_5 :
    ∀ (users : List User) (meetings : List Meeting) (ps : List String)
      (dur : Int) (dr : String) (r : FindReport),
      findOptimalSlots users meetings ps dur dr = .ok r →
      (∀ rec ∈ r.recommendations,
        rec.participants_available = rec.total_participants) ∧
      ∃ top, r.recommendations = mkRecsAux ps.length 1 top ∧
        ∀ slot ∈ top, slot.score = 0 ∨ slot.score = 5 := by
  intro users meetings ps dur dr r h
  obtain ⟨d0, d1, cands, hp, hg, hrecs⟩ :=
    findOptimalSlots_ok_shape users meetings ps dur dr r h
  have htop : ∀ slot ∈ (sortSlots cands).take 5, slot.score < 10 ∧
      evalAnchor (resolveParticipants users ps) (participantMeetings meetings ps)
        slot.start slot.stop = .ok (slot.score, slot.availability_details) := by
    intro slot hs
    have hs1 : slot ∈ sortSlots cands := List.take_subset 5 _ hs
    have hs2 : slot ∈ cands := (mem_sortSlots cands slot).mp hs1
    exact genSlots_ok_mem _ _ _ _ _ cands hg slot hs2
  constructor
  · intro rec hrec
    rw [hrecs] at hrec
    obtain ⟨slot, hslot, k, rfl⟩ := mem_mkRecsAux ps.length 1 _ rec hrec
    obtain ⟨hlt, hev⟩ := htop slot hslot
    obtain ⟨hsc, hlen⟩ := evalAnchor_ok_spec _ _ _ _ _ _ hev
    have ha : slot.availability_details.countP (fun d => !d.available) = 0 := by
      omega
    have hall : ∀ d ∈ slot.availability_details, d.available = true := by
      intro d hd
      have hnd := List.countP_eq_zero.mp ha d hd
      simpa using hnd
    show (slot.availability_details.filter (fun d => d.available)).length = ps.length
    rw [List.filter_eq_self.mpr hall, hlen]
    simp [resolveParticipants]
  · refine ⟨(sortSlots cands).take 5, hrecs, ?_⟩
    intro slot hslot
    obtain ⟨hlt, hev⟩ := htop slot hslot
    obtain ⟨hsc, _⟩ := evalAnchor_ok_spec _ _ _ _ _ _ hev
    omega

/-- Witness: the first recommendation of the long-duration run reports all
of its participants available. -/
theorem recommendations_all_available_witness :
    longDurationFirstRec.participants_available =
      longDurationFirstRec.total_participants := by
  have h := (recommendations_all_available_score_0_or_5 [] [] ["Zara"] 510
    "2024-06-03 to 2024-06-03" (getOk dummyFindReport longDurationRun) rfl).1
  exact h longDurationFirstRec (by decide)

/-- C6: `find_optimal_slots` returns at most five recommendations, built
one-to-one (in order) from the top of the stable score sort of the
candidate slots, so scores are non-decreasing by rank; for every fixed
score the sort preserves discovery order (earliest date, then earliest
hour, first). -/
theorem recommendations_top5_sorted_stable :
    ∀ (users : List User) (meetings : List Meeting) (ps : List String)
      (dur : Int) (dr : String) (r : FindReport),
      findOptimalSlots users meetings ps dur dr = .ok r →
      r.recommendations.length ≤ 5 ∧
      ∃ d0 d1 cands,
        parseDateRange dr = some (d0, d1) ∧
        genSlots (resolveParticipants users ps) (participantMeetings meetings ps)
          dur d0 d1 = .ok cands ∧
        r.recommendations = mkRecsAux ps.length 1 ((sortSlots cands).take 5) ∧
        List.Sorted (· ≤ ·) (((sortSlots cands).take 5).map Slot.score) ∧
        ∀ sc, (sortSlots cands).filter (fun y => y.score == sc) =
          cands.filter (fun y => y.score == sc) := by
  intro users meetings ps dur dr r h
  obtain ⟨d0, d1, cands, hp, hg, hrecs⟩ :=
    findOptimalSlots_ok_shape users meetings ps dur dr r h
  refine ⟨?_, d0, d1, cands, hp, hg, hrecs, ?_, ?_⟩
  · rw [hrecs, mkRecsAux_length]
    simp only [List.length_take]
    omega
  · have hs := sortSlots_sorted cands
    have hst : List.Sorted (fun a b : Slot => a.score ≤ b.score)
        ((sortSlots cands).take 5) :=
      hs.sublist (List.take_sublist 5 _)
    exact List.pairwise_map.mpr hst
  · intro sc
    exact sortSlots_filter sc cands

/-- Witness: the short-duration run returns at most five
recommendations. -/
theorem recommendations_top5_witness :
    (getOk dummyFindReport shortDurationRun).recommendations.length ≤ 5 :=
  (recommendations_top5_sorted_stable [] [] ["Zara"] 30
    "2024-06-03 to 2024-06-03" (getOk dummyFindReport shortDurationRun) rfl).1

/-- C2 (amended): for a user whose work hours are present, the
availability record satisfies: `available` is true iff no meeting naming
the user overlaps `[start, end)` under the half-open test; `in_work_hours`
is true iff the start's time-of-day is at least `work_start` and the end's
time-of-day is at most `work_end` (time-of-day only, so a slot crossing
midnight can still count as in work hours when both its endpoint
times-of-day fall inside the window); and `conflicts` holds exactly the
overlapping meetings with their id, title and time range. -/
theorem checkUserAvailability_characterisation :
    ∀ (u : User) (ws we s e : Int) (ms : List Meeting) (a : Availability),
      u.workHours = some (ws, we) →
      checkUserAvailability u s e ms = .ok a →
      (a.available = true ↔
        ∀ m ∈ ms, ¬(namesMeeting u m = true ∧ s < m.stop ∧ e > m.start)) ∧
      (a.in_work_hours = true ↔ (ws ≤ timeOfDay s ∧ timeOfDay e ≤ we)) ∧
      (∀ c, c ∈ a.conflicts ↔ ∃ m ∈ ms, namesMeeting u m = true ∧ s < m.stop ∧
        e > m.start ∧ c = ⟨m.id, m.title, m.start, m.stop⟩) := by
  intro u ws we s e ms a hw h
  simp only [checkUserAvailability, hw, Except.ok.injEq] at h
  subst h
  refine ⟨?_, ?_, ?_⟩
  · simp only [beq_iff_eq, List.length_eq_zero, overlapConflicts, List.map_eq_nil_iff,
      List.filter_eq_nil_iff, Bool.and_eq_true, decide_eq_true_eq, gt_iff_lt, and_assoc]
  · simp [Bool.and_eq_true, decide_eq_true_eq]
  · intro c
    simp only [overlapConflicts, List.mem_map, List.mem_filter, Bool.and_eq_true,
      decide_eq_true_eq, gt_iff_lt, and_assoc]
    constructor
    · rintro ⟨m, hm, hname, hs1, hs2, rfl⟩
      exact ⟨m, hm, hname, hs1, hs2, rfl⟩
    · rintro ⟨m, hm, hname, hs1, hs2, rfl⟩
      exact ⟨m, hm, hname, hs1, hs2, rfl⟩

/-- Counterexample to C2 as stated: for Alice (work hours 09:00-17:00) the
candidate slot from 2024-06-03 16:00 to 2024-06-04 15:00 crosses midnight
(it starts before and ends after midnight of 2024-06-04), yet
`check_user_availability` reports it as in work hours, because only
times-of-day are compared (16:00 is at or after 09:00 and 15:00 is at or
before 17:00). -/
theorem midnight_slot_in_work_hours :
    midnightAvail.in_work_hours = true ∧
      atTime 2024 6 3 16 0 < atTime 2024 6 4 0 0 ∧
      atTime 2024 6 4 0 0 < atTime 2024 6 4 15 0 := by
  refine ⟨by decide, by decide, by decide⟩

/-- Witness for the availability characterisation, instantiated at Alice
and an in-hours 10:00-11:00 slot against no meetings. -/
theorem checkUserAvailability_characterisation_witness :
    emptyMeetingsAvail.in_work_hours = true ↔
      (540 ≤ timeOfDay (atTime 2024 6 3 10 0) ∧
        timeOfDay (atTime 2024 6 3 11 0) ≤ 1020) :=
  (checkUserAvailability_characterisation alice 540 1020 (atTime 2024 6 3 10 0)
    (atTime 2024 6 3 11 0) [] emptyMeetingsAvail rfl rfl).2.1

/-- C3 (amended): against an empty meeting set the availability check
returns `available = true` with an empty conflicts list whenever the
user's work-hour data is present; for absent work-hour data it does not
default to a full-day window but fails with the `KeyError` that
`user['work_hours']` raises (caught only at the tool boundary). -/
theorem availability_empty_meetings_and_missing_work_hours :
    ∀ (u : User) (s e ws we : Int) (a : Availability),
      (u.workHours = some (ws, we) → checkUserAvailability u s e [] = .ok a →
        a.available = true ∧ a.conflicts = []) ∧
      (u.workHours = none →
        checkUserAvailability u s e [] = .error "KeyError: work_hours") := by
  intro u s e ws we a
  constructor
  · intro hw h
    simp only [checkUserAvailability, hw, Except.ok.injEq] at h
    subst h
    constructor
    · simp [overlapConflicts]
    · simp [overlapConflicts]
  · intro hw
    simp [checkUserAvailability, hw]

/-- Counterexample to C3 as stated: for Dave, whose record has no
`work_hours` key, the availability check raises (`KeyError`, modelled as
`.error`) instead of treating the work window as the full day. -/
theorem missing_work_hours_raises :
    checkUserAvailability dave (atTime 2024 6 3 10 0) (atTime 2024 6 3 11 0) []
      = .error "KeyError: work_hours" := by
  rfl

/-- Witness for the empty-meeting-set behaviour, instantiated at Alice. -/
theorem availability_empty_meetings_witness :
    emptyMeetingsAvail.available = true ∧ emptyMeetingsAvail.conflicts = [] :=
  (availability_empty_meetings_and_missing_work_hours alice (atTime 2024 6 3 10 0)
    (atTime 2024 6 3 11 0) 540 1020 emptyMeetingsAvail).1 rfl rfl

/-- C4: the conflict detector never lets an exception escape: every run
returns either a success report or a structured failure; an unknown user
produces the not-found failure message; a lookup `KeyError` is wrapped;
a malformed time range (with a resolved user) produces the wrapped parse
failure; and a missing `work_hours` key on the resolved user is likewise
caught and wrapped with the exception text. -/
theorem detect_never_raises_structured_failures :
    ∀ (users : List User) (meetings : List Meeting) (uid tr : String),
      ((∃ r, detectSchedulingConflicts users meetings uid tr = .ok r) ∨
        (∃ msg, detectSchedulingConflicts users meetings uid tr = .error msg)) ∧
      (findUserRecord users uid = .ok none →
        detectSchedulingConflicts users meetings uid tr =
          .error ("User '" ++ uid ++ "' not found")) ∧
      (∀ e, findUserRecord users uid = .error e →
        detectSchedulingConflicts users meetings uid tr =
          .error ("Error detecting conflicts: " ++ e)) ∧
      (∀ u, findUserRecord users uid = .ok (some u) → parseTimeRange tr = none →
        detectSchedulingConflicts users meetings uid tr =
          .error "Error detecting conflicts: time range parse error") ∧
      (∀ u cs ce, findUserRecord users uid = .ok (some u) →
        parseTimeRange tr = some (cs, ce) → u.workHours = none →
        detectSchedulingConflicts users meetings uid tr =
          .error "Error detecting conflicts: KeyError: work_hours") := by
  intro users meetings uid tr
  refine ⟨?_, ?_, ?_, ?_, ?_⟩
  · cases h : detectSchedulingConflicts users meetings uid tr with
    | ok r => exact Or.inl ⟨r, rfl⟩
    | error msg => exact Or.inr ⟨msg, rfl⟩
  · intro hf
    simp [detectSchedulingConflicts, hf]
  · intro e hf
    simp [detectSchedulingConflicts, hf]
  · intro u hf hp
    simp [detectSchedulingConflicts, hf, hp]
  · intro u cs ce hf hp hw
    obtain ⟨i, hi⟩ := findUserRecord_some_id users uid u hf
    simp [detectSchedulingConflicts, hf, hp, hi, hw]

/-- Witness: querying an unknown user yields the structured not-found
failure. -/
theorem detect_unknown_user_witness :
    detectSchedulingConflicts [alice] aliceMeetings "Ghost"
      "2024-06-03T00:00 to 2024-06-03T23:59" =
      .error ("User '" ++ "Ghost" ++ "' not found") :=
  (detect_never_raises_structured_failures [alice] aliceMeetings "Ghost"
    "2024-06-03T00:00 to 2024-06-03T23:59").2.1 rfl

/-- C9: the conflict detector is a pure function of the injected user and
meeting collections and its two string inputs (the Python source's only
ambient state, the two JSON files, is modelled by those collections):
identical inputs give identical output. -/
theorem detect_deterministic :
    ∀ (users1 users2 : List User) (meetings1 meetings2 : List Meeting)
      (uid tr : String), users1 = users2 → meetings1 = meetings2 →
      detectSchedulingConflicts users1 meetings1 uid tr =
        detectSchedulingConflicts users2 meetings2 uid tr := by
  intro u1 u2 m1 m2 uid tr h1 h2
  rw [h1, h2]

/-- Witness: re-running the overlap scenario gives the identical result. -/
theorem detect_deterministic_witness :
    detectSchedulingConflicts [alice] aliceMeetings "Alice"
      "2024-06-03T00:00 to 2024-06-03T23:59" =
      detectSchedulingConflicts [alice] aliceMeetings "Alice"
        "2024-06-03T00:00 to 2024-06-03T23:59" :=
  detect_deterministic [alice] [alice] aliceMeetings aliceMeetings "Alice"
    "2024-06-03T00:00 to 2024-06-03T23:59" rfl rfl

/-- C1 evidence: on the failing input (a single unknown participant, a
510-minute duration, the single Monday 2024-06-03), `find_optimal_slots`
returns two recommendations: the 16:00 anchor ending 00:30 on the NEXT
day (minute 1470 of the Monday) ranked first, and the 09:00 anchor
ending 17:30 (minute 1050, while 17:00 is minute 1020).  Both starts are
on a weekday, but both ends are after 17:00 local, because the source's
guard `slot_end.hour > 17` misses ends in (17:00, 18:00) and ends that
roll past midnight, contradicting sentence "any anchor whose start hour
plus the requested duration pushes the end past 17:00 is skipped" and the
source's own comment "Skip if slot extends beyond work hours". -/
theorem find_optimal_slots_end_beyond_1700 :
    recommendationTimes longDurationRun =
      some [(daysFromCivil 2024 6 3 * 1440 + 960, daysFromCivil 2024 6 3 * 1440 + 1470),
            (daysFromCivil 2024 6 3 * 1440 + 540, daysFromCivil 2024 6 3 * 1440 + 1050)] ∧
      pyWeekday (daysFromCivil 2024 6 3) = 0 := by
  exact ⟨by decide, by decide⟩

/-- C8: in the scenario where Alice (work hours 09:00-17:00) has meetings
10:00-11:00 and 10:30-11:30 on 2024-06-03, querying the window
2024-06-03T00:00 to 2024-06-03T23:59 succeeds and yields exactly one
conflict, of type `overlapping_meetings`, with an overlap of 30 minutes,
and the insights status is `critical`. -/
theorem alice_overlap_scenario :
    detectSchedulingConflicts [alice] aliceMeetings "Alice"
        "2024-06-03T00:00 to 2024-06-03T23:59" = .ok scenarioDetectReport ∧
      scenarioDetectReport.conflicts_found = 1 ∧
      scenarioDetectReport.conflicts.map Conflict.ctype = ["overlapping_meetings"] ∧
      scenarioDetectReport.conflicts.map Conflict.overlapMinutes = [some 30] ∧
      scenarioDetectReport.insights.status = "critical" := by
  exact ⟨rfl, by decide, by decide, by decide, by decide⟩

/-- C7 (amended): for a successful detector run whose query window is not
inverted, if every matching meeting's interval lies within the window
bounds AND the matching meetings are pairwise non-overlapping, then the
reported meeting-load percentage is in [0, 100]; and it is exactly 0
whenever `meetings_in_range` is 0.  (Without the pairwise condition the
percentage can exceed 100, since the load sums full, unclipped meeting
durations.) -/
theorem meeting_load_percentage_bounds :
    ∀ (users : List User) (meetings : List Meeting) (uid tr : String)
      (r : DetectReport),
      detectSchedulingConflicts users meetings uid tr = .ok r →
      r.time_range.start ≤ r.time_range.stop →
      (∀ m ∈ r.meetings, r.time_range.start ≤ m.start ∧ m.start ≤ m.stop ∧
        m.stop ≤ r.time_range.stop) →
      List.Pairwise (fun a b => a.stop ≤ b.start ∨ b.stop ≤ a.start) r.meetings →
      0 ≤ r.insights.meeting_load_percentage ∧
        r.insights.meeting_load_percentage ≤ 100 ∧
        (r.meetings_in_range = 0 → r.insights.meeting_load_percentage = 0) := by
  intro users meetings uid tr r h hse hb hp
  obtain ⟨hmr, _, hins⟩ := detect_ok_shape users meetings uid tr r h
  rw [hins]
  obtain ⟨h0, h100, hz⟩ := insights_load_bounds r.conflicts r.meetings
    r.time_range.start r.time_range.stop hse hb hp
  refine ⟨h0, h100, ?_⟩
  intro hm0
  apply hz
  rw [hmr] at hm0
  exact List.length_eq_zero.mp hm0

/-- Counterexample to C7 as stated: Alice's two meetings both span exactly
the 10:00-11:00 query window, so each lies within the window bounds, yet
they overlap each other and the reported load is 200 percent. -/
theorem meeting_load_exceeds_100 :
    detectSchedulingConflicts [alice] doubledMeetings "Alice"
        "2024-06-03T10:00 to 2024-06-03T11:00" = .ok doubledDetectReport ∧
      doubledDetectReport.time_range.start ≤ doubledDetectReport.time_range.stop ∧
      doubledDetectReport.meetings.all (fun m =>
        decide (doubledDetectReport.time_range.start ≤ m.start) &&
        decide (m.start ≤ m.stop) &&
        decide (m.stop ≤ doubledDetectReport.time_range.stop)) = true ∧
      doubledDetectReport.meetings_in_range = 2 ∧
      doubledDetectReport.insights.meeting_load_percentage = 200 ∧
      ¬(doubledDetectReport.insights.meeting_load_percentage ≤ 100) := by
  have hload : doubledDetectReport.insights.meeting_load_percentage =
      round1 ((((120 : ℤ) : ℚ) / ((60 : ℤ) : ℚ)) * 100) := rfl
  have h200 : round1 ((((120 : ℤ) : ℚ) / ((60 : ℤ) : ℚ)) * 100) = 200 := by
    unfold round1
    have harg : (((120 : ℤ) : ℚ) / ((60 : ℤ) : ℚ)) * 100 * 10 + 1 / 2
        = 4001 / 2 := by norm_num
    rw [harg]
    have hf : ⌊(4001 : ℚ) / 2⌋ = 2000 := by
      rw [Int.floor_eq_iff]
      norm_num
    rw [hf]
    norm_num
  refine ⟨rfl, by decide, by decide, by decide, ?_, ?_⟩
  · rw [hload, h200]
  · rw [hload, h200]
    norm_num

/-- Witness for the load bound: one in-window 10:00-11:00 meeting over the
09:00-17:00 window. -/
theorem meeting_load_percentage_bounds_witness :
    0 ≤ soloDetectReport.insights.meeting_load_percentage ∧
      soloDetectReport.insights.meeting_load_percentage ≤ 100 ∧
      (soloDetectReport.meetings_in_range = 0 →
        soloDetectReport.insights.meeting_load_percentage = 0) :=
  meeting_load_percentage_bounds [alice] soloMeetings "Alice"
    "2024-06-03T09:00 to 2024-06-03T17:00" soloDetectReport rfl (by decide)
    (by decide) (by decide)
